import Mathlib

/-!
# Verification of the ProfileRing procedural ring-mesh generator

Shallow embedding of `src/ringScene.ts` (function `buildRingGeometry` and its
helpers `sampleProfile`, `ensureClosedProfile`, `ensureCounterClockwise`,
`signedArea`, `symmetricRamp`, `smoothstep01`, and the `RingScene.updateProfile`
entry point), together with the pieces of the three.js library the generator
calls into (`CatmullRomCurve3.getPoint` for a closed uniform catmullrom curve,
`Curve.getPoints`, `CubicPoly`, `Quaternion.setFromAxisAngle`,
`Vector3.applyQuaternion`).

JavaScript double-precision numbers are modelled as exact rationals `ℚ`;
quantities whose computation involves transcendental functions (`Math.sin`,
`Math.cos`, `Math.PI`) are modelled over the reals `ℝ` with the exact
`Real.sin`, `Real.cos`, `Real.pi`.  The structural data of the generator
(segment counts, the resampled profile, triangle indices, UVs) is entirely
rational and stays computable.
-/

namespace ProfileRing

/-- `three.Vector2` restricted to the value view used by the generator:
a pair of numbers with exact (`equals`) equality. -/
structure Vec2 where
  x : ℚ
  y : ℚ
deriving DecidableEq

/-- `three.Vector2.distanceToSquared`. -/
def distanceToSquared (a b : Vec2) : ℚ :=
  (a.x - b.x) * (a.x - b.x) + (a.y - b.y) * (a.y - b.y)

/-- `Number.EPSILON` (2⁻⁵²), the threshold used by `sampleProfile` for the
duplicate-endpoint check. -/
def numberEpsilon : ℚ := 1 / 2 ^ 52

/-- The `RingParameters` record from `src/types.ts`. -/
structure RingParameters where
  radialSegments : ℚ
  twistDegrees : ℚ
  profileScale : ℚ
  taper : ℚ
  ringRadius : ℚ
  thickness : ℚ
  arcDegrees : ℚ
  scaleVariance : ℚ
  scaleFrequency : ℚ
  tiltVariance : ℚ
  tiltFrequency : ℚ
deriving DecidableEq

/-! ## three.js spline machinery used by `sampleProfile`

`sampleProfile` lifts the 2D control points to `Vector3`s with `z = 0`,
builds `new CatmullRomCurve3(curvePoints, true, "catmullrom", 0.5)` and calls
`curve.getPoints(segments)`.  Since every control point has `z = 0` the cubic
for the `z` coordinate is identically zero, so the curve is embedded directly
in 2D.  For `curveType = "catmullrom"` three.js evaluates a uniform
Catmull-Rom cubic through `CubicPoly.initCatmullRom` with the given tension,
which is exact rational arithmetic. -/

/-- `CubicPoly` from three.js `Interpolations`: coefficients of
`c0 + c1 t + c2 t² + c3 t³` as set by `init(x0, x1, t0, t1)`. -/
structure CubicPoly where
  c0 : ℚ
  c1 : ℚ
  c2 : ℚ
  c3 : ℚ

/-- `CubicPoly.init`. -/
def cubicPolyInit (x0 x1 t0 t1 : ℚ) : CubicPoly :=
  ⟨x0, t0, -3 * x0 + 3 * x1 - 2 * t0 - t1, 2 * x0 - 2 * x1 + t0 + t1⟩

/-- `CubicPoly.initCatmullRom`. -/
def initCatmullRom (x0 x1 x2 x3 tension : ℚ) : CubicPoly :=
  cubicPolyInit x1 x2 (tension * (x2 - x0)) (tension * (x3 - x1))

/-- `CubicPoly.calc`. -/
def cubicCalc (p : CubicPoly) (t : ℚ) : ℚ :=
  p.c0 + p.c1 * t + p.c2 * (t * t) + p.c3 * (t * t * t)

/-- `CatmullRomCurve3.getPoint` for a *closed* curve with
`curveType = "catmullrom"` (the configuration built by `sampleProfile`).
For a closed curve `p = points.length * t`; `intPoint = Math.floor(p)` is
shifted into positive range by whole multiples of the length, after which the
four control indices are taken modulo the length (the JavaScript `%` agrees
with `Int.emod` on the non-negative values that occur here). -/
def catmullGetPoint (pts : List Vec2) (tension : ℚ) (t : ℚ) : Vec2 :=
  let l : ℤ := pts.length
  let p : ℚ := (l : ℚ) * t
  let ip : ℤ := ⌊p⌋
  let weight : ℚ := p - (ip : ℚ)
  let intPoint : ℤ := if 0 < ip then ip else ip + ((ip.natAbs / pts.length : ℕ) + 1) * l
  let pointAt : ℤ → Vec2 := fun j => pts.getD (j % l).toNat ⟨0, 0⟩
  let p0 := pointAt (intPoint - 1)
  let p1 := pointAt intPoint
  let p2 := pointAt (intPoint + 1)
  let p3 := pointAt (intPoint + 2)
  let px := initCatmullRom p0.x p1.x p2.x p3.x tension
  let py := initCatmullRom p0.y p1.y p2.y p3.y tension
  ⟨cubicCalc px weight, cubicCalc py weight⟩

/-- `Curve.getPoints(divisions)`: the `divisions + 1` samples at
`t = d / divisions`, `d = 0, …, divisions`. -/
def getPoints (pts : List Vec2) (divisions : ℕ) : List Vec2 :=
  (List.range (divisions + 1)).map fun d : ℕ => catmullGetPoint pts 0.5 ((d : ℚ) / (divisions : ℚ))

/-! ## The profile pipeline of `ringScene.ts` -/

/-- `sampleProfile` from `ringScene.ts`. -/
def sampleProfile (points : List Vec2) : List Vec2 :=
  if points.length < 3 then points
  else
    let segments := max (points.length * 12) 96
    let sampled := getPoints points segments
    if 1 < sampled.length ∧
        distanceToSquared (sampled.headD ⟨0, 0⟩) (sampled.getLastD ⟨0, 0⟩) < numberEpsilon then
      sampled.dropLast
    else sampled

/-- `ensureClosedProfile` from `ringScene.ts`.  The source reads
`result[0]` / `result[result.length - 1]`, which exist for every list the
generator produces (the generator is never invoked on an empty list). -/
def ensureClosedProfile (points : List Vec2) : List Vec2 :=
  let first := points.headD ⟨0, 0⟩
  let last := points.getLastD ⟨0, 0⟩
  if first = last then points else points ++ [first]

/-- The loop body of `signedArea`:
`current.x * next.y - next.x * current.y`. -/
def shoelaceTerm (current next : Vec2) : ℚ :=
  current.x * next.y - next.x * current.y

/-- `signedArea` from `ringScene.ts` (shoelace formula; the accumulation order
of the JavaScript loop is irrelevant for the exact rational sum). -/
def signedArea (points : List Vec2) : ℚ :=
  (∑ i ∈ Finset.range points.length,
    shoelaceTerm (points.getD i ⟨0, 0⟩) (points.getD ((i + 1) % points.length) ⟨0, 0⟩)) / 2

/-- Sum of shoelace terms over consecutive pairs of an open chain. -/
def edgeSum : List Vec2 → ℚ
  | a :: b :: rest => shoelaceTerm a b + edgeSum (b :: rest)
  | _ => 0

/-- `ensureCounterClockwise` from `ringScene.ts`. -/
def ensureCounterClockwise (points : List Vec2) : List Vec2 :=
  if points.length < 3 then points
  else if 0 ≤ signedArea points then points
  else points.reverse

/-- The normalized profile used by `buildRingGeometry`:
`ensureClosedProfile(ensureCounterClockwise(sampleProfile(points)))`. -/
def normalizedProfile (points : List Vec2) : List Vec2 :=
  ensureClosedProfile (ensureCounterClockwise (sampleProfile points))

/-- `profileSegments` in `buildRingGeometry`: the length of the normalized
profile. -/
def profileSegments (points : List Vec2) : ℕ :=
  (normalizedProfile points).length

/-! ## Ramp and smoothstep -/

/-- `smoothstep01` from `ringScene.ts`. -/
def smoothstep01 (t : ℚ) : ℚ :=
  let clamped := min (max t 0) 1
  clamped * clamped * (3 - 2 * clamped)

/-- `symmetricRamp` from `ringScene.ts`. -/
def symmetricRamp (value : ℚ) : ℚ :=
  let normalized := value - ⌊value⌋
  if normalized ≤ 0.5 then
    smoothstep01 (normalized / 0.5)
  else
    smoothstep01 (1 - (normalized - 0.5) / 0.5)

/-! ## Sweep-lattice parameters of `buildRingGeometry` -/

/-- `const closed = parameters.arcDegrees >= 359.9`. -/
def closedSweep (ps : RingParameters) : Prop := 359.9 ≤ ps.arcDegrees

instance (ps : RingParameters) : Decidable (closedSweep ps) :=
  inferInstanceAs (Decidable (_ ≤ _))

/-- `const arcDegrees = Math.min(parameters.arcDegrees, 360)`. -/
def arcDegreesClamped (ps : RingParameters) : ℚ := min ps.arcDegrees 360

/-- `const arcFraction = closed ? 1 : arcDegrees / 360`. -/
def arcFraction (ps : RingParameters) : ℚ :=
  if closedSweep ps then 1 else arcDegreesClamped ps / 360

/-- `const baseSegments = Math.max(2, Math.floor(parameters.radialSegments * arcFraction))`. -/
def baseSegments (ps : RingParameters) : ℤ :=
  max 2 ⌊ps.radialSegments * arcFraction ps⌋

/-- `const radialSegments = Math.max(closed ? 3 : 2, baseSegments)`. -/
def radialSegmentsZ (ps : RingParameters) : ℤ :=
  max (if closedSweep ps then 3 else 2) (baseSegments ps)

/-- The effective radial segment count as a natural number (it is always ≥ 2,
so `Int.toNat` loses nothing). -/
def radialSegmentsN (ps : RingParameters) : ℕ :=
  (radialSegmentsZ ps).toNat

/-- `const TAU = Math.PI * 2`. -/
noncomputable def TAU : ℝ := Real.pi * 2

/-- `const arcRadians = closed ? TAU : (arcDegrees * Math.PI) / 180`. -/
noncomputable def arcRadians (ps : RingParameters) : ℝ :=
  if closedSweep ps then TAU else (arcDegreesClamped ps : ℝ) * Real.pi / 180

/-- `const segmentT = closed ? segment / radialSegments : segment / (radialSegments - 1)`. -/
def segmentT (ps : RingParameters) (segment : ℕ) : ℚ :=
  if closedSweep ps then (segment : ℚ) / (radialSegmentsN ps : ℚ)
  else (segment : ℚ) / ((radialSegmentsN ps : ℚ) - 1)

/-- `const twistRadians = (parameters.twistDegrees * Math.PI) / 180`. -/
noncomputable def twistRadiansOf (ps : RingParameters) : ℝ :=
  (ps.twistDegrees : ℝ) * Real.pi / 180

/-- `const tiltAmplitude = (parameters.tiltVariance * Math.PI) / 180`. -/
noncomputable def tiltAmplitude (ps : RingParameters) : ℝ :=
  (ps.tiltVariance : ℝ) * Real.pi / 180

/-- `const scaleFrequency = Math.max(0, parameters.scaleFrequency)`. -/
def scaleFrequencyClamped (ps : RingParameters) : ℚ := max 0 ps.scaleFrequency

/-- `const tiltFrequency = Math.max(0, parameters.tiltFrequency)`. -/
def tiltFrequencyClamped (ps : RingParameters) : ℚ := max 0 ps.tiltFrequency

/-- `const baseScaleClamp = Math.max(0.05, parameters.profileScale)`. -/
def baseScaleClamp (ps : RingParameters) : ℚ := max 0.05 ps.profileScale

/-- `const scaleFactor = Math.max(0.2, 1 + parameters.taper * ramp)`
at radial position `t`. -/
def scaleFactor (ps : RingParameters) (t : ℚ) : ℚ :=
  max 0.2 (1 + ps.taper * symmetricRamp t)

/-- `const scaleWave = 1 + scaleVariance * Math.sin(segmentT * scaleFrequency * TAU)`. -/
noncomputable def scaleWave (ps : RingParameters) (t : ℚ) : ℝ :=
  1 + (ps.scaleVariance : ℝ) * Real.sin ((t : ℝ) * (scaleFrequencyClamped ps : ℝ) * TAU)

/-- `const localScale = baseScaleClamp * scaleFactor * Math.max(0.25, scaleWave)`. -/
noncomputable def localScale (ps : RingParameters) (t : ℚ) : ℝ :=
  (baseScaleClamp ps : ℝ) * (scaleFactor ps t : ℝ) * max 0.25 (scaleWave ps t)

/-- `const tiltAngle = tiltAmplitude * Math.sin(segmentT * tiltFrequency * TAU)`. -/
noncomputable def tiltAngle (ps : RingParameters) (t : ℚ) : ℝ :=
  tiltAmplitude ps * Real.sin ((t : ℝ) * (tiltFrequencyClamped ps : ℝ) * TAU)

/-! ## Vertex placement (real-valued) -/

/-- `three.Vector3` as a value. -/
structure Vec3R where
  x : ℝ
  y : ℝ
  z : ℝ

/-- `three.Quaternion` as a value. -/
structure QuatR where
  x : ℝ
  y : ℝ
  z : ℝ
  w : ℝ

/-- `Quaternion.setFromAxisAngle(axis, angle)` (axis assumed normalized,
as in three.js). -/
noncomputable def setFromAxisAngle (axis : Vec3R) (angle : ℝ) : QuatR :=
  let halfAngle := angle / 2
  let s := Real.sin halfAngle
  ⟨axis.x * s, axis.y * s, axis.z * s, Real.cos halfAngle⟩

/-- `Vector3.applyQuaternion(q)`. -/
noncomputable def applyQuaternion (q : QuatR) (v : Vec3R) : Vec3R :=
  let tx := 2 * (q.y * v.z - q.z * v.y)
  let ty := 2 * (q.z * v.x - q.x * v.z)
  let tz := 2 * (q.x * v.y - q.y * v.x)
  ⟨v.x + q.w * tx + q.y * tz - q.z * ty,
   v.y + q.w * ty + q.z * tx - q.x * tz,
   v.z + q.w * tz + q.x * ty - q.y * tx⟩

/-- The position written by `buildRingGeometry` for lattice point
`(segment, i)`: the body of the two nested loops of `ringScene.ts`
lines 158–207 (scratch-vector mutation unrolled into values). -/
noncomputable def vertexPosition (ps : RingParameters) (profile : List Vec2)
    (segment i : ℕ) : Vec3R :=
  let t := segmentT ps segment
  let angle : ℝ := if closedSweep ps then (t : ℝ) * TAU else (t : ℝ) * arcRadians ps
  let twist : ℝ := twistRadiansOf ps * (symmetricRamp t : ℝ)
  let cosTwist := Real.cos twist
  let sinTwist := Real.sin twist
  let scale := localScale ps t
  let baseRadial : Vec3R := ⟨Real.cos angle, 0, Real.sin angle⟩
  let center : Vec3R :=
    ⟨baseRadial.x * (ps.ringRadius : ℝ), baseRadial.y * (ps.ringRadius : ℝ),
      baseRadial.z * (ps.ringRadius : ℝ)⟩
  let tangent : Vec3R := ⟨-Real.sin angle, 0, Real.cos angle⟩
  let tilt := tiltAngle ps t
  let tiltQuaternion := setFromAxisAngle tangent tilt
  let radialTilted : Vec3R :=
    if 1e-4 < |tilt| then applyQuaternion tiltQuaternion baseRadial else baseRadial
  let binormalTilted : Vec3R :=
    if 1e-4 < |tilt| then applyQuaternion tiltQuaternion ⟨0, 1, 0⟩ else ⟨0, 1, 0⟩
  let point := profile.getD i ⟨0, 0⟩
  let twistedX : ℝ := (point.x : ℝ) * cosTwist - (point.y : ℝ) * sinTwist
  let twistedY : ℝ := (point.x : ℝ) * sinTwist + (point.y : ℝ) * cosTwist
  let offset : Vec3R :=
    ⟨radialTilted.x * (twistedX * scale * (ps.thickness : ℝ)) + binormalTilted.x * (twistedY * scale),
     radialTilted.y * (twistedX * scale * (ps.thickness : ℝ)) + binormalTilted.y * (twistedY * scale),
     radialTilted.z * (twistedX * scale * (ps.thickness : ℝ)) + binormalTilted.z * (twistedY * scale)⟩
  ⟨center.x + offset.x, center.y + offset.y, center.z + offset.z⟩

/-- The `positions` buffer: vertex `segment * profileSegments + i` is the
lattice point `(segment, i)`, i.e. row-major enumeration of the lattice. -/
noncomputable def positionsList (points : List Vec2) (ps : RingParameters) : List Vec3R :=
  let profile := normalizedProfile points
  (List.range (radialSegmentsN ps)).flatMap fun segment =>
    (List.range profile.length).map fun i => vertexPosition ps profile segment i

/-- The `uvs` buffer: `uv = (i / (profileSegments - 1), segmentT)`,
in the same row-major vertex order. -/
def uvsList (points : List Vec2) (ps : RingParameters) : List (ℚ × ℚ) :=
  (List.range (radialSegmentsN ps)).flatMap fun segment =>
    (List.range (profileSegments points)).map fun i : ℕ =>
      ((i : ℚ) / ((profileSegments points : ℚ) - 1), segmentT ps segment)

/-- The triangle index list of `buildRingGeometry` (lines 209–224):
for each radial segment (skipping the last one on an open sweep) and each
consecutive pair of profile points, the six indices `a, d, b, b, d, c`. -/
def buildIndices (closed : Prop) [Decidable closed]
    (radialSegments profileSegments : ℕ) : List ℕ :=
  (List.range radialSegments).flatMap fun segment =>
    let nextSegment := if closed then (segment + 1) % radialSegments else segment + 1
    if ¬ closed ∧ segment = radialSegments - 1 then []
    else
      (List.range (profileSegments - 1)).flatMap fun i =>
        let a := segment * profileSegments + i
        let b := nextSegment * profileSegments + i
        let c := nextSegment * profileSegments + (i + 1)
        let d := segment * profileSegments + (i + 1)
        [a, d, b, b, d, c]

/-- The indexed mesh produced by one generator call: positions, UVs and the
triangle index list (per-vertex normals are recomputed by
`geometry.computeVertexNormals()` from exactly these data and carry no
independent information). -/
structure RingGeometry where
  positions : List Vec3R
  uvs : List (ℚ × ℚ)
  indices : List ℕ

/-- `buildRingGeometry` from `ringScene.ts`. -/
noncomputable def buildRingGeometry (points : List Vec2) (ps : RingParameters) : RingGeometry :=
  ⟨positionsList points ps, uvsList points ps,
    buildIndices (closedSweep ps) (radialSegmentsN ps) (profileSegments points)⟩

/-- Consecutive index triples of an index list, i.e. its triangles. -/
def trianglesOf : List ℕ → List (ℕ × ℕ × ℕ)
  | a :: b :: c :: rest => (a, b, c) :: trianglesOf rest
  | _ => []

/-- A triangle has a vertex lying in radial segment `s` of a lattice with
`profileSegments = p` (vertex `v` belongs to segment `v / p`). -/
def triTouches (p s : ℕ) (t : ℕ × ℕ × ℕ) : Prop :=
  t.1 / p = s ∨ t.2.1 / p = s ∨ t.2.2 / p = s

/-- Some triangle of the generated mesh connects the last radial segment with
radial segment 0. -/
def seamConnected (points : List Vec2) (ps : RingParameters) : Prop :=
  ∃ t ∈ trianglesOf (buildRingGeometry points ps).indices,
    triTouches (profileSegments points) (radialSegmentsN ps - 1) t ∧
      triTouches (profileSegments points) 0 t

/-! ## The viewport entry point `RingScene.updateProfile` -/

/-- The scene effects `updateProfile` performs besides returning the new
`ringMesh` state: disposing the previous geometry and installing the new one,
or adding a brand-new mesh. -/
inductive SceneAction where
  | disposeGeometry : RingGeometry → SceneAction
  | setGeometry : RingGeometry → SceneAction
  | addMesh : RingGeometry → SceneAction

/-- `RingScene.updateProfile` (lines 64–79): the `ringMesh` field before the
call is the first argument, the returned pair is the `ringMesh` field after
the call together with the list of performed scene effects.  An empty point
list returns immediately (no effect, no exception). -/
noncomputable def updateProfile (ringMesh : Option RingGeometry)
    (points : List Vec2) (ps : RingParameters) :
    Option RingGeometry × List SceneAction :=
  if points.length = 0 then (ringMesh, [])
  else
    let geometry := buildRingGeometry points ps
    match ringMesh with
    | some old => (some geometry, [SceneAction.disposeGeometry old, SceneAction.setGeometry geometry])
    | none => (some geometry, [SceneAction.addMesh geometry])

/-! ## Concrete inputs used by the claims -/

/-- The default parameter record of the UI
(`radialSegments=96, twistDegrees=0, profileScale=0.6, taper=0, ringRadius=1.5,
thickness=1, arcDegrees=360, scaleVariance=0, scaleFrequency=1.5,
tiltVariance=0, tiltFrequency=1.5`). -/
def defaultParameters : RingParameters :=
  ⟨96, 0, 0.6, 0, 1.5, 1, 360, 0, 1.5, 0, 1.5⟩

/-- A regular 12-point circle profile of radius 0.35 (control points at 30°
steps, coordinates rounded to rational values — the exact preset uses
`Math.cos`/`Math.sin`, whose values are irrational; only the point count and
pairwise-distinctness matter for the mesh-size claims). -/
def circle12 : List Vec2 :=
  [⟨0.35, 0⟩, ⟨0.3031, 0.175⟩, ⟨0.175, 0.3031⟩, ⟨0, 0.35⟩,
   ⟨-0.175, 0.3031⟩, ⟨-0.3031, 0.175⟩, ⟨-0.35, 0⟩, ⟨-0.3031, -0.175⟩,
   ⟨-0.175, -0.3031⟩, ⟨0, -0.35⟩, ⟨0.175, -0.3031⟩, ⟨0.3031, -0.175⟩]

/-- A minimal 3-point control profile. -/
def triangleProfile : List Vec2 :=
  [⟨0.3, 0⟩, ⟨0, 0.3⟩, ⟨-0.3, -0.1⟩]

/-- The default parameters with `arcDegrees = 180` (half-arc sweep). -/
def params180 : RingParameters :=
  ⟨96, 0, 0.6, 0, 1.5, 1, 180, 0, 1.5, 0, 1.5⟩

/-- The default parameters with requested `radialSegments = 2` (closed sweep
whose requested segment count is below the closed floor of 3). -/
def paramsReq2 : RingParameters :=
  ⟨2, 0, 0.6, 0, 1.5, 1, 360, 0, 1.5, 0, 1.5⟩

/-- A clockwise-wound unit square (negative shoelace area as drawn). -/
def squareCW : List Vec2 :=
  [⟨0, 0⟩, ⟨0, 1⟩, ⟨1, 1⟩, ⟨1, 0⟩]

/-! ## Triangle-list and lattice-size lemmas -/

lemma trianglesOf_append : ∀ (l1 : List ℕ), l1.length % 3 = 0 → ∀ l2 : List ℕ,
    trianglesOf (l1 ++ l2) = trianglesOf l1 ++ trianglesOf l2
  | [], _, l2 => by simp [trianglesOf]
  | [a], h, l2 => by simp at h
  | [a, b], h, l2 => by simp at h
  | a :: b :: c :: rest, h, l2 => by
    have hr : rest.length % 3 = 0 := by simp [List.length_cons] at h; omega
    simp [trianglesOf, trianglesOf_append rest hr l2]

lemma trianglesOf_length : ∀ l : List ℕ, (trianglesOf l).length = l.length / 3
  | [] => rfl
  | [_] => by simp [trianglesOf]
  | [_, _] => by simp [trianglesOf]
  | a :: b :: c :: rest => by
    simp only [trianglesOf, List.length_cons, trianglesOf_length rest]
    omega

lemma trianglesOf_flatMap {α : Type} (l : List α) (f : α → List ℕ)
    (h : ∀ a, (f a).length % 3 = 0) :
    trianglesOf (l.flatMap f) = l.flatMap fun a => trianglesOf (f a) := by
  induction l with
  | nil => rfl
  | cons a l ih => simp [List.flatMap_cons, trianglesOf_append (f a) (h a), ih]

lemma buildIndices_length_closed (c : Prop) [Decidable c] (hc : c) (R P : ℕ) :
    (buildIndices c R P).length = R * ((P - 1) * 6) := by
  simp [buildIndices, hc, List.length_flatMap, Function.comp_def, List.map_const',
    List.sum_replicate, smul_eq_mul, Nat.mul_comm]

lemma positionsList_length (points : List Vec2) (ps : RingParameters) :
    (positionsList points ps).length = radialSegmentsN ps * profileSegments points := by
  simp [positionsList, profileSegments, List.length_flatMap, Function.comp_def,
    List.map_const', List.sum_replicate, smul_eq_mul, Nat.mul_comm]

/-! ## Spline sampling lemmas -/

lemma distanceToSquared_self (a : Vec2) : distanceToSquared a a = 0 := by
  simp [distanceToSquared]

lemma numberEpsilon_pos : 0 < numberEpsilon := by norm_num [numberEpsilon]

lemma getPoints_length (pts : List Vec2) (n : ℕ) : (getPoints pts n).length = n + 1 := by
  rw [getPoints, List.length_map, List.length_range]

/-- For a closed curve, the sample at `t = 1` is computed by exactly the same
index-and-weight configuration as the sample at `t = 0`, hence is equal to it. -/
lemma catmullGetPoint_one (pts : List Vec2) (tension : ℚ) (h : 0 < pts.length) :
    catmullGetPoint pts tension 1 = catmullGetPoint pts tension 0 := by
  have hl : (0 : ℤ) < (pts.length : ℤ) := by exact_mod_cast h
  simp [catmullGetPoint, hl, Int.floor_intCast]

lemma sampleProfile_eq (pts : List Vec2) (h3 : 3 ≤ pts.length) :
    sampleProfile pts =
      (List.range (max (pts.length * 12) 96)).map
        (fun d : ℕ => catmullGetPoint pts 0.5 ((d : ℚ) / ((max (pts.length * 12) 96 : ℕ) : ℚ))) := by
  have hn : ¬ pts.length < 3 := by omega
  set n : ℕ := max (pts.length * 12) 96 with hdefn
  have hnpos : 0 < n := by omega
  have hsplit : getPoints pts n =
      (List.range n).map (fun d : ℕ => catmullGetPoint pts 0.5 ((d : ℚ) / (n : ℚ))) ++
        [catmullGetPoint pts 0.5 ((n : ℚ) / (n : ℚ))] := by
    conv_lhs => rw [getPoints, show n + 1 = n.succ from rfl, List.range_succ]
    simp
  have hlast : catmullGetPoint pts 0.5 ((n : ℚ) / (n : ℚ)) = catmullGetPoint pts 0.5 0 := by
    rw [div_self (by exact_mod_cast hnpos.ne' : (n : ℚ) ≠ 0)]
    exact catmullGetPoint_one pts 0.5 (by omega)
  have hhead : (getPoints pts n).headD ⟨0, 0⟩ = catmullGetPoint pts 0.5 0 := by
    obtain ⟨m, hm⟩ : ∃ m, n = m + 1 := ⟨n - 1, by omega⟩
    rw [getPoints]
    rw [show n + 1 = (m + 1) + 1 from by omega]
    rw [List.range_succ_eq_map]
    simp
  have hlst : (getPoints pts n).getLastD ⟨0, 0⟩ = catmullGetPoint pts 0.5 0 := by
    rw [hsplit, List.getLastD_concat, hlast]
  have hcond : 1 < (getPoints pts n).length ∧
      distanceToSquared ((getPoints pts n).headD ⟨0, 0⟩) ((getPoints pts n).getLastD ⟨0, 0⟩) <
        numberEpsilon := by
    refine ⟨by rw [getPoints_length]; omega, ?_⟩
    rw [hhead, hlst, distanceToSquared_self]
    exact numberEpsilon_pos
  calc sampleProfile pts
      = (getPoints pts n).dropLast := by
        simp only [sampleProfile, if_neg hn, ← hdefn, if_pos hcond]
    _ = _ := by rw [hsplit, List.dropLast_concat]

lemma sampleProfile_length (pts : List Vec2) (h3 : 3 ≤ pts.length) :
    (sampleProfile pts).length = max (pts.length * 12) 96 := by
  rw [sampleProfile_eq pts h3, List.length_map, List.length_range]

lemma sampleProfile_headD (pts : List Vec2) (h3 : 3 ≤ pts.length) :
    (sampleProfile pts).headD ⟨0, 0⟩ = catmullGetPoint pts 0.5 0 := by
  rw [sampleProfile_eq pts h3]
  obtain ⟨m, hm⟩ : ∃ m, max (pts.length * 12) 96 = m + 1 := ⟨max (pts.length * 12) 96 - 1, by omega⟩
  rw [hm, List.range_succ_eq_map]
  simp

lemma sampleProfile_getLastD (pts : List Vec2) (h3 : 3 ≤ pts.length) :
    (sampleProfile pts).getLastD ⟨0, 0⟩ =
      catmullGetPoint pts 0.5
        (((max (pts.length * 12) 96 - 1 : ℕ) : ℚ) / ((max (pts.length * 12) 96 : ℕ) : ℚ)) := by
  rw [sampleProfile_eq pts h3]
  obtain ⟨m, hm⟩ : ∃ m, max (pts.length * 12) 96 = m + 1 := ⟨max (pts.length * 12) 96 - 1, by omega⟩
  rw [hm, List.range_succ, List.map_append]
  simp [List.getLastD_concat]

/-! ## Winding-correction and closure lemmas -/

lemma ensureCounterClockwise_length (l : List Vec2) :
    (ensureCounterClockwise l).length = l.length := by
  unfold ensureCounterClockwise
  split
  · rfl
  split
  · rfl
  · simp

lemma ensureCounterClockwise_head_iff (l : List Vec2) :
    ((ensureCounterClockwise l).headD ⟨0, 0⟩ = (ensureCounterClockwise l).getLastD ⟨0, 0⟩) ↔
      (l.headD ⟨0, 0⟩ = l.getLastD ⟨0, 0⟩) := by
  unfold ensureCounterClockwise
  split
  · exact Iff.rfl
  split
  · exact Iff.rfl
  · rw [List.headD_eq_head?, List.getLastD_eq_getLast?, List.head?_reverse, List.getLast?_reverse,
      ← List.headD_eq_head?, ← List.getLastD_eq_getLast?]
    exact eq_comm

lemma ensureClosedProfile_length (l : List Vec2) :
    (ensureClosedProfile l).length =
      if l.headD ⟨0, 0⟩ = l.getLastD ⟨0, 0⟩ then l.length else l.length + 1 := by
  show (if l.headD ⟨0, 0⟩ = l.getLastD ⟨0, 0⟩ then l else l ++ [l.headD ⟨0, 0⟩]).length = _
  by_cases h : l.headD ⟨0, 0⟩ = l.getLastD ⟨0, 0⟩
  · rw [if_pos h, if_pos h]
  · rw [if_neg h, if_neg h]; simp

lemma ensureClosedProfile_head_eq_last (l : List Vec2) (hne : l ≠ []) :
    (ensureClosedProfile l).headD ⟨0, 0⟩ = (ensureClosedProfile l).getLastD ⟨0, 0⟩ := by
  show (if l.headD ⟨0, 0⟩ = l.getLastD ⟨0, 0⟩ then l else l ++ [l.headD ⟨0, 0⟩]).headD ⟨0, 0⟩ =
    (if l.headD ⟨0, 0⟩ = l.getLastD ⟨0, 0⟩ then l else l ++ [l.headD ⟨0, 0⟩]).getLastD ⟨0, 0⟩
  by_cases h : l.headD ⟨0, 0⟩ = l.getLastD ⟨0, 0⟩
  · rw [if_pos h]; exact h
  · rw [if_neg h]
    obtain ⟨a, l', rfl⟩ := List.exists_cons_of_ne_nil hne
    rw [List.getLastD_concat, List.cons_append, List.headD_cons, List.headD_cons]

lemma profileSegments_ge (pts : List Vec2) (h3 : 3 ≤ pts.length) :
    96 ≤ profileSegments pts := by
  have h1 := sampleProfile_length pts h3
  have h2 := ensureCounterClockwise_length (sampleProfile pts)
  have h3' := ensureClosedProfile_length (ensureCounterClockwise (sampleProfile pts))
  unfold profileSegments normalizedProfile
  rw [h3']
  split <;> omega


/-! ## Shoelace-area lemmas -/

lemma shoelaceTerm_self (a : Vec2) : shoelaceTerm a a = 0 := by
  simp [shoelaceTerm]

lemma shoelaceTerm_comm (a b : Vec2) : shoelaceTerm b a = -shoelaceTerm a b := by
  unfold shoelaceTerm; ring

lemma getLastD_irrel : ∀ (y : Vec2) (rest : List Vec2) (a b : Vec2),
    (y :: rest).getLastD a = (y :: rest).getLastD b
  | _, [], _, _ => rfl
  | y, z :: rest, a, b =>
    (List.getLastD_cons a y (z :: rest)).trans (List.getLastD_cons b y (z :: rest)).symm

lemma edgeSum_concat : ∀ (l : List Vec2), l ≠ [] → ∀ a : Vec2,
    edgeSum (l ++ [a]) = edgeSum l + shoelaceTerm (l.getLastD ⟨0, 0⟩) a
  | [], h, _ => absurd rfl h
  | [x], _, a => by simp [edgeSum]
  | x :: y :: rest, _, a => by
    have ih := edgeSum_concat (y :: rest) (by simp) a
    have h1 : (x :: y :: rest).getLastD ⟨0, 0⟩ = (y :: rest).getLastD ⟨0, 0⟩ := by
      rw [List.getLastD_cons]
      exact getLastD_irrel y rest x ⟨0, 0⟩
    calc edgeSum ((x :: y :: rest) ++ [a])
        = shoelaceTerm x y + edgeSum ((y :: rest) ++ [a]) := rfl
      _ = shoelaceTerm x y + (edgeSum (y :: rest) + shoelaceTerm ((y :: rest).getLastD ⟨0, 0⟩) a) := by
          rw [ih]
      _ = (shoelaceTerm x y + edgeSum (y :: rest)) + shoelaceTerm ((x :: y :: rest).getLastD ⟨0, 0⟩) a := by
          rw [h1]; ring
      _ = edgeSum (x :: y :: rest) + shoelaceTerm ((x :: y :: rest).getLastD ⟨0, 0⟩) a := rfl

lemma edgeSum_reverse : ∀ l : List Vec2, edgeSum l.reverse = -edgeSum l
  | [] => by simp [edgeSum]
  | [x] => by simp [edgeSum]
  | x :: y :: rest => by
    have ih := edgeSum_reverse (y :: rest)
    have hne : (y :: rest).reverse ≠ [] := by simp
    have hrev : (x :: y :: rest).reverse = (y :: rest).reverse ++ [x] := by
      simp [List.reverse_cons]
    have hlast : ((y :: rest).reverse).getLastD ⟨0, 0⟩ = y := by
      rw [List.getLastD_eq_getLast?, List.getLast?_reverse]
      rfl
    rw [hrev, edgeSum_concat _ hne x, ih, hlast,
      show edgeSum (x :: y :: rest) = shoelaceTerm x y + edgeSum (y :: rest) from rfl,
      shoelaceTerm_comm y x]
    ring

lemma sum_shoelace_eq_edgeSum : ∀ l : List Vec2,
    (∑ i ∈ Finset.range (l.length - 1),
      shoelaceTerm (l.getD i ⟨0, 0⟩) (l.getD (i + 1) ⟨0, 0⟩)) = edgeSum l
  | [] => by simp [edgeSum]
  | [x] => by simp [edgeSum]
  | x :: y :: rest => by
    have ih := sum_shoelace_eq_edgeSum (y :: rest)
    simp only [List.length_cons, Nat.add_sub_cancel] at ih
    have hlen : (x :: y :: rest).length - 1 = rest.length + 1 := by simp
    rw [hlen, Finset.sum_range_succ']
    simp only [List.getD_cons_succ, List.getD_cons_zero] at ih ⊢
    rw [ih, show edgeSum (x :: y :: rest) = shoelaceTerm x y + edgeSum (y :: rest) from rfl]
    ring

lemma getD_last : ∀ l : List Vec2, l ≠ [] → l.getD (l.length - 1) ⟨0, 0⟩ = l.getLastD ⟨0, 0⟩
  | [], h => absurd rfl h
  | [x], _ => rfl
  | x :: y :: rest, _ => by
    have ih := getD_last (y :: rest) (by simp)
    have hlen : (x :: y :: rest).length - 1 = ((y :: rest).length - 1) + 1 := by simp
    rw [hlen, List.getD_cons_succ, ih]
    exact (getLastD_irrel y rest ⟨0, 0⟩ x).trans (List.getLastD_cons ⟨0, 0⟩ x (y :: rest)).symm

lemma signedArea_eq_edgeSum (l : List Vec2) (hne : l ≠ []) :
    signedArea l = (edgeSum l + shoelaceTerm (l.getLastD ⟨0, 0⟩) (l.headD ⟨0, 0⟩)) / 2 := by
  obtain ⟨m, hm⟩ : ∃ m, l.length = m + 1 := by
    cases l with
    | nil => exact absurd rfl hne
    | cons a t => exact ⟨t.length, by simp⟩
  unfold signedArea
  rw [hm, Finset.sum_range_succ]
  have hgd0 : l.getD 0 ⟨0, 0⟩ = l.headD ⟨0, 0⟩ := by
    cases l with
    | nil => rfl
    | cons a t => rfl
  have hgdm : l.getD m ⟨0, 0⟩ = l.getLastD ⟨0, 0⟩ := by
    have h := getD_last l hne
    rwa [hm, Nat.add_sub_cancel] at h
  have hmain : ∀ i ∈ Finset.range m,
      shoelaceTerm (l.getD i ⟨0, 0⟩) (l.getD ((i + 1) % (m + 1)) ⟨0, 0⟩) =
        shoelaceTerm (l.getD i ⟨0, 0⟩) (l.getD (i + 1) ⟨0, 0⟩) := by
    intro i hi
    rw [Nat.mod_eq_of_lt (by simp at hi; omega)]
  rw [Finset.sum_congr rfl hmain, Nat.mod_self, hgd0, hgdm]
  have hsum := sum_shoelace_eq_edgeSum l
  rw [hm, Nat.add_sub_cancel] at hsum
  rw [hsum]

lemma signedArea_reverse (l : List Vec2) : signedArea l.reverse = -signedArea l := by
  rcases eq_or_ne l [] with rfl | hne
  · simp [signedArea]
  · have hne' : l.reverse ≠ [] := by simpa using hne
    rw [signedArea_eq_edgeSum l hne, signedArea_eq_edgeSum l.reverse hne', edgeSum_reverse]
    have h1 : l.reverse.getLastD ⟨0, 0⟩ = l.headD ⟨0, 0⟩ := by
      rw [List.getLastD_eq_getLast?, List.getLast?_reverse, List.headD_eq_head?]
    have h2 : l.reverse.headD ⟨0, 0⟩ = l.getLastD ⟨0, 0⟩ := by
      rw [List.headD_eq_head?, List.head?_reverse, List.getLastD_eq_getLast?]
    rw [h1, h2, shoelaceTerm_comm]
    ring

lemma signedArea_small : ∀ l : List Vec2, l.length < 3 → 0 ≤ signedArea l
  | [], _ => by simp [signedArea]
  | [a], _ => by
    simp [signedArea, shoelaceTerm, Finset.sum_range_one]
  | [a, b], _ => by
    have h0 : signedArea [a, b] = 0 := by
      simp [signedArea, shoelaceTerm, Finset.sum_range_succ, Finset.sum_range_one]
      ring
    rw [h0]
  | _ :: _ :: _ :: _, h => by simp at h; omega

lemma ensureCounterClockwise_area_nonneg (l : List Vec2) :
    0 ≤ signedArea (ensureCounterClockwise l) := by
  unfold ensureCounterClockwise
  by_cases h3 : l.length < 3
  · rw [if_pos h3]; exact signedArea_small l h3
  · rw [if_neg h3]
    by_cases ha : 0 ≤ signedArea l
    · rw [if_pos ha]; exact ha
    · rw [if_neg ha, signedArea_reverse]
      push_neg at ha
      linarith

lemma signedArea_ensureClosedProfile (l : List Vec2) (hne : l ≠ []) :
    signedArea (ensureClosedProfile l) = signedArea l := by
  show signedArea (if l.headD ⟨0, 0⟩ = l.getLastD ⟨0, 0⟩ then l else l ++ [l.headD ⟨0, 0⟩]) = _
  by_cases h : l.headD ⟨0, 0⟩ = l.getLastD ⟨0, 0⟩
  · rw [if_pos h]
  · rw [if_neg h]
    have hne2 : l ++ [l.headD ⟨0, 0⟩] ≠ [] := by simp
    rw [signedArea_eq_edgeSum _ hne2, signedArea_eq_edgeSum l hne,
      edgeSum_concat l hne, List.getLastD_concat]
    have hhead : (l ++ [l.headD ⟨0, 0⟩]).headD ⟨0, 0⟩ = l.headD ⟨0, 0⟩ := by
      obtain ⟨a, l', rfl⟩ := List.exists_cons_of_ne_nil hne
      rw [List.cons_append, List.headD_cons, List.headD_cons]
    rw [hhead, shoelaceTerm_self]
    ring

lemma sampleProfile_ne_nil (pts : List Vec2) (h : pts ≠ []) : sampleProfile pts ≠ [] := by
  by_cases h3 : 3 ≤ pts.length
  · have hl := sampleProfile_length pts h3
    intro hnil
    rw [hnil] at hl
    simp at hl
    omega
  · have hp : sampleProfile pts = pts := by
      unfold sampleProfile
      rw [if_pos (by omega)]
    rw [hp]
    exact h

lemma ensureCounterClockwise_ne_nil (l : List Vec2) (h : l ≠ []) :
    ensureCounterClockwise l ≠ [] := by
  intro hn
  have hl := ensureCounterClockwise_length l
  rw [hn] at hl
  exact h (List.length_eq_zero.mp hl.symm)


/-! ## Radial-segment-count lemmas -/

lemma radialSegmentsZ_closed (ps : RingParameters) (hc : closedSweep ps) :
    radialSegmentsZ ps = max 3 (max 2 ⌊ps.radialSegments⌋) := by
  unfold radialSegmentsZ baseSegments arcFraction
  rw [if_pos hc, if_pos hc, mul_one]

lemma radialSegmentsZ_open (ps : RingParameters) (hc : ¬ closedSweep ps) :
    radialSegmentsZ ps = max 2 ⌊ps.radialSegments * ps.arcDegrees / 360⌋ := by
  unfold radialSegmentsZ baseSegments arcFraction arcDegreesClamped
  rw [if_neg hc, if_neg hc]
  have hlt : ps.arcDegrees < 359.9 := by
    unfold closedSweep at hc; linarith [lt_of_not_le hc]
  have hmin : min ps.arcDegrees 360 = ps.arcDegrees := by
    apply min_eq_left; norm_num at hlt ⊢; linarith
  rw [hmin, mul_div_assoc, ← max_assoc, max_self]

lemma two_le_radialSegmentsZ (ps : RingParameters) : 2 ≤ radialSegmentsZ ps := by
  unfold radialSegmentsZ baseSegments
  exact le_trans (le_max_left 2 _) (le_max_right _ _)

lemma radialSegmentsN_cast (ps : RingParameters) :
    (radialSegmentsN ps : ℤ) = radialSegmentsZ ps := by
  unfold radialSegmentsN
  exact Int.toNat_of_nonneg (by linarith [two_le_radialSegmentsZ ps])

lemma two_le_radialSegmentsN (ps : RingParameters) : 2 ≤ radialSegmentsN ps := by
  have h1 := two_le_radialSegmentsZ ps
  unfold radialSegmentsN
  omega

lemma three_le_radialSegmentsN_closed (ps : RingParameters) (hc : closedSweep ps) :
    3 ≤ radialSegmentsN ps := by
  have h := radialSegmentsZ_closed ps hc
  have h3 : 3 ≤ radialSegmentsZ ps := by rw [h]; exact le_max_left _ _
  unfold radialSegmentsN
  omega

/-! ## Ramp lemmas -/

lemma symmetricRamp_first_half (t : ℚ) (h0 : 0 ≤ t) (h1 : t ≤ 1/2) :
    symmetricRamp t = 3 * (2*t)^2 - 2 * (2*t)^3 := by
  unfold symmetricRamp
  have hf : ⌊t⌋ = 0 := Int.floor_eq_zero_iff.mpr ⟨h0, by linarith⟩
  rw [hf]
  rw [if_pos (by push_cast; norm_num; linarith : t - ((0:ℤ):ℚ) ≤ 0.5)]
  unfold smoothstep01
  have harg : (t - ((0:ℤ):ℚ)) / 0.5 = 2 * t := by push_cast; ring
  rw [harg]
  have hc : min (max (2*t) 0) 1 = 2*t := by
    rw [max_eq_left (by linarith), min_eq_left (by linarith)]
  rw [hc]; ring

lemma symmetricRamp_second_half (t : ℚ) (h0 : 1/2 ≤ t) (h1 : t ≤ 1) :
    symmetricRamp t = 3 * (2 - 2*t)^2 - 2 * (2 - 2*t)^3 := by
  rcases eq_or_lt_of_le h1 with rfl | hlt
  · unfold symmetricRamp smoothstep01
    norm_num
  · rcases eq_or_lt_of_le h0 with heq | hgt
    · rw [← heq]
      rw [symmetricRamp_first_half (1/2) (by norm_num) (by norm_num)]
      norm_num
    · unfold symmetricRamp
      have hf : ⌊t⌋ = 0 := Int.floor_eq_zero_iff.mpr ⟨by linarith, by linarith⟩
      rw [hf]
      rw [if_neg (by push_cast; norm_num; linarith : ¬ (t - ((0:ℤ):ℚ) ≤ 0.5))]
      unfold smoothstep01
      have harg : 1 - (t - ((0:ℤ):ℚ) - 0.5) / 0.5 = 2 - 2*t := by push_cast; norm_num; ring
      rw [harg]
      have hc : min (max (2 - 2*t) 0) 1 = 2 - 2*t := by
        rw [max_eq_left (by linarith), min_eq_left (by linarith)]
      rw [hc]; ring


/-! ## Seam-topology lemmas -/

lemma trianglesOf_buildIndices (closed : Prop) [Decidable closed] (R P : ℕ) :
    trianglesOf (buildIndices closed R P) =
      (List.range R).flatMap fun segment =>
        if ¬ closed ∧ segment = R - 1 then []
        else
          (List.range (P - 1)).flatMap fun i =>
            [(segment * P + i, segment * P + (i + 1),
                (if closed then (segment + 1) % R else segment + 1) * P + i),
              ((if closed then (segment + 1) % R else segment + 1) * P + i,
                segment * P + (i + 1),
                (if closed then (segment + 1) % R else segment + 1) * P + (i + 1))] := by
  simp only [buildIndices]
  rw [trianglesOf_flatMap]
  · congr 1
    funext segment
    by_cases h : ¬ closed ∧ segment = R - 1
    · rw [if_pos h, if_pos h]
      rfl
    · rw [if_neg h, if_neg h]
      rw [trianglesOf_flatMap]
      · rfl
      · intro i
        simp
  · intro s
    by_cases h : ¬ closed ∧ s = R - 1
    · rw [if_pos h]
      rfl
    · rw [if_neg h]
      rw [List.length_flatMap]
      simp only [Function.comp_def, List.length_cons, List.length_nil]
      rw [List.map_const', List.sum_replicate, smul_eq_mul, List.length_range]
      omega

lemma seamConnected_closed (points : List Vec2) (ps : RingParameters)
    (hc : closedSweep ps) (hP : 2 ≤ profileSegments points) : seamConnected points ps := by
  have hR3 : 3 ≤ radialSegmentsN ps := three_le_radialSegmentsN_closed ps hc
  unfold seamConnected
  rw [show (buildRingGeometry points ps).indices =
      buildIndices (closedSweep ps) (radialSegmentsN ps) (profileSegments points) from rfl,
    trianglesOf_buildIndices]
  set R := radialSegmentsN ps with hRdef
  set P := profileSegments points with hPdef
  have hP0 : 0 < P := by omega
  refine ⟨((R - 1) * P + 0, (R - 1) * P + (0 + 1),
      (if closedSweep ps then (R - 1 + 1) % R else R - 1 + 1) * P + 0), ?_, ?_, ?_⟩
  · rw [List.mem_flatMap]
    refine ⟨R - 1, by rw [List.mem_range]; omega, ?_⟩
    rw [if_neg (by simp [hc] : ¬ (¬ closedSweep ps ∧ R - 1 = R - 1))]
    rw [List.mem_flatMap]
    exact ⟨0, by rw [List.mem_range]; omega, List.mem_cons_self _ _⟩
  · left
    show ((R - 1) * P + 0) / P = R - 1
    rw [Nat.add_zero, Nat.mul_div_cancel _ hP0]
  · right; right
    show ((if closedSweep ps then (R - 1 + 1) % R else R - 1 + 1) * P + 0) / P = 0
    rw [if_pos hc, show R - 1 + 1 = R from by omega, Nat.mod_self, Nat.zero_mul, Nat.zero_add,
      Nat.zero_div]

lemma not_seamConnected_open (points : List Vec2) (ps : RingParameters)
    (hc : ¬ closedSweep ps) (hR : 3 ≤ radialSegmentsN ps) (hP : 2 ≤ profileSegments points) :
    ¬ seamConnected points ps := by
  unfold seamConnected
  rw [show (buildRingGeometry points ps).indices =
      buildIndices (closedSweep ps) (radialSegmentsN ps) (profileSegments points) from rfl,
    trianglesOf_buildIndices]
  set R := radialSegmentsN ps with hRdef
  set P := profileSegments points with hPdef
  have hP0 : 0 < P := by omega
  have hdiv : ∀ a j : ℕ, j < P → (a * P + j) / P = a := by
    intro a j hj
    rw [Nat.mul_comm, Nat.mul_add_div hP0, Nat.div_eq_of_lt hj, Nat.add_zero]
  rintro ⟨t, hmem, htl, ht0⟩
  rw [List.mem_flatMap] at hmem
  obtain ⟨s, hs, hmem⟩ := hmem
  rw [List.mem_range] at hs
  by_cases hlast : s = R - 1
  · rw [if_pos ⟨hc, hlast⟩] at hmem
    exact absurd hmem (List.not_mem_nil _)
  · rw [if_neg (by tauto)] at hmem
    rw [List.mem_flatMap] at hmem
    obtain ⟨i, hi, hmem⟩ := hmem
    rw [List.mem_range] at hi
    rw [if_neg hc] at hmem
    simp only [List.mem_cons, List.not_mem_nil, or_false] at hmem
    rcases hmem with rfl | rfl
    · simp only [triTouches] at htl ht0
      rw [hdiv s i (by omega), hdiv s (i + 1) (by omega), hdiv (s + 1) i (by omega)] at htl ht0
      omega
    · simp only [triTouches] at htl ht0
      rw [hdiv (s + 1) i (by omega), hdiv s (i + 1) (by omega),
        hdiv (s + 1) (i + 1) (by omega)] at htl ht0
      omega


/-! ## Concrete evaluations on the 12-point circle profile -/

lemma circle12_length : circle12.length = 12 := rfl

lemma toNat_lit_zero : Int.toNat 0 = 0 := rfl
lemma toNat_lit_one : Int.toNat 1 = 1 := rfl
lemma toNat_lit_two : Int.toNat 2 = 2 := rfl
lemma toNat_lit_ten : Int.toNat 10 = 10 := rfl
lemma toNat_lit_eleven : Int.toNat 11 = 11 := rfl

lemma circle12_elem_zero : circle12[0] = ⟨0.35, 0⟩ := rfl
lemma circle12_elem_one : circle12[1] = ⟨0.3031, 0.175⟩ := rfl
lemma circle12_elem_two : circle12[2] = ⟨0.175, 0.3031⟩ := rfl
lemma circle12_elem_ten : circle12[10] = ⟨0.175, -0.3031⟩ := rfl
lemma circle12_elem_eleven : circle12[11] = ⟨0.3031, -0.175⟩ := rfl

/-- The first sample of the closed spline through `circle12` is the first
control point. -/
lemma catmull_circle12_zero : catmullGetPoint circle12 0.5 0 = ⟨0.35, 0⟩ := by
  norm_num [catmullGetPoint, initCatmullRom, cubicPolyInit, cubicCalc, Vec2.mk.injEq,
    circle12_length, toNat_lit_zero, toNat_lit_one, toNat_lit_two, toNat_lit_ten,
    toNat_lit_eleven, circle12_elem_zero, circle12_elem_one, circle12_elem_two,
    circle12_elem_ten, circle12_elem_eleven]

/-- The last retained sample (parameter 143/144) differs from the first control
point, so the resampled profile is genuinely open before explicit closure. -/
lemma catmull_circle12_last : catmullGetPoint circle12 0.5 (143 / 144) ≠ ⟨0.35, 0⟩ := by
  norm_num [catmullGetPoint, initCatmullRom, cubicPolyInit, cubicCalc, Vec2.mk.injEq,
    circle12_length, toNat_lit_zero, toNat_lit_one, toNat_lit_two, toNat_lit_ten,
    toNat_lit_eleven, circle12_elem_zero, circle12_elem_one, circle12_elem_two,
    circle12_elem_ten, circle12_elem_eleven]

lemma circle12_three_le : 3 ≤ circle12.length := by rw [circle12_length]; norm_num

lemma circle12_sample_head_ne_last :
    (sampleProfile circle12).headD ⟨0, 0⟩ ≠ (sampleProfile circle12).getLastD ⟨0, 0⟩ := by
  rw [sampleProfile_headD circle12 circle12_three_le,
    sampleProfile_getLastD circle12 circle12_three_le]
  have hmax : max (circle12.length * 12) 96 = 144 := by rw [circle12_length]; omega
  have harg : ((max (circle12.length * 12) 96 - 1 : ℕ) : ℚ) /
      ((max (circle12.length * 12) 96 : ℕ) : ℚ) = 143 / 144 := by
    rw [hmax]; norm_num
  rw [harg, catmull_circle12_zero]
  exact fun h => catmull_circle12_last h.symm

/-- When the resampled profile is genuinely open, normalization appends the
closure point: `profileSegments = sampleCount + 1`. -/
lemma profileSegments_concrete (pts : List Vec2) (h3 : 3 ≤ pts.length)
    (hne : (sampleProfile pts).headD ⟨0, 0⟩ ≠ (sampleProfile pts).getLastD ⟨0, 0⟩) :
    profileSegments pts = max (pts.length * 12) 96 + 1 := by
  unfold profileSegments normalizedProfile
  rw [ensureClosedProfile_length]
  rw [if_neg (fun h => hne ((ensureCounterClockwise_head_iff _).mp h))]
  rw [ensureCounterClockwise_length, sampleProfile_length pts h3]

lemma profileSegments_circle12 : profileSegments circle12 = 145 := by
  rw [profileSegments_concrete circle12 circle12_three_le circle12_sample_head_ne_last,
    circle12_length]
  omega

/-! ## Concrete parameter computations -/

lemma closedSweep_default : closedSweep defaultParameters := by
  show (359.9 : ℚ) ≤ defaultParameters.arcDegrees
  rw [show defaultParameters.arcDegrees = 360 from rfl]
  norm_num

lemma radialSegmentsN_default : radialSegmentsN defaultParameters = 96 := by
  unfold radialSegmentsN
  rw [radialSegmentsZ_closed defaultParameters closedSweep_default,
    show defaultParameters.radialSegments = 96 from rfl,
    show ⌊(96 : ℚ)⌋ = 96 from by norm_num]
  omega


/-! ## Remaining concrete support lemmas -/

lemma triangleProfile_length : triangleProfile.length = 3 := rfl

lemma closedSweep_paramsReq2 : closedSweep paramsReq2 := by
  show (359.9 : ℚ) ≤ paramsReq2.arcDegrees
  rw [show paramsReq2.arcDegrees = 360 from rfl]
  norm_num

lemma radialSegmentsN_paramsReq2 : radialSegmentsN paramsReq2 = 3 := by
  unfold radialSegmentsN
  rw [radialSegmentsZ_closed _ closedSweep_paramsReq2,
    show paramsReq2.radialSegments = 2 from rfl,
    show ⌊(2 : ℚ)⌋ = 2 from by norm_num]
  omega

lemma not_closedSweep_params180 : ¬ closedSweep params180 := by
  show ¬ (359.9 : ℚ) ≤ params180.arcDegrees
  rw [show params180.arcDegrees = 180 from rfl]
  norm_num

lemma radialSegmentsN_params180 : radialSegmentsN params180 = 48 := by
  unfold radialSegmentsN
  rw [radialSegmentsZ_open _ not_closedSweep_params180,
    show params180.radialSegments = 96 from rfl,
    show params180.arcDegrees = 180 from rfl,
    show ⌊(96 : ℚ) * 180 / 360⌋ = 48 from by norm_num]
  omega

/-! ## The claims -/

/-- C1 counterexample: for a 12-point control polygon (circle-like, radius
0.35) with the default parameters, `buildRingGeometry` does NOT produce
`96 * 13` vertices — the profile is spline-resampled to `max(12·12, 96) = 144`
points before closure, so the vertex count is `96 * 145`. -/
theorem C1_counterexample :
    (buildRingGeometry circle12 defaultParameters).positions.length ≠ 96 * 13 := by
  have h : (buildRingGeometry circle12 defaultParameters).positions.length =
      radialSegmentsN defaultParameters * profileSegments circle12 :=
    positionsList_length _ _
  rw [h, radialSegmentsN_default, profileSegments_circle12]
  norm_num

/-- C1 (amended): for a 12-point control polygon with the default parameters,
`buildRingGeometry` produces a closed mesh with exactly `96 * 145` vertices
(144 resampled profile points plus 1 closure point) and `96 * 144 * 2`
triangles. -/
theorem C1_default_mesh_size :
    (buildRingGeometry circle12 defaultParameters).positions.length = 96 * 145 ∧
      (trianglesOf (buildRingGeometry circle12 defaultParameters).indices).length =
        96 * 144 * 2 := by
  constructor
  · have h : (buildRingGeometry circle12 defaultParameters).positions.length =
        radialSegmentsN defaultParameters * profileSegments circle12 :=
      positionsList_length _ _
    rw [h, radialSegmentsN_default, profileSegments_circle12]
  · have h : (buildRingGeometry circle12 defaultParameters).indices =
        buildIndices (closedSweep defaultParameters) (radialSegmentsN defaultParameters)
          (profileSegments circle12) := rfl
    rw [h, trianglesOf_length, buildIndices_length_closed _ closedSweep_default,
      radialSegmentsN_default, profileSegments_circle12]

/-- C2: `arcDegrees = 360` and `arcDegrees = 359.9` both produce the closed
wraparound topology (a triangle connects the last radial segment back to
segment 0), while `arcDegrees = 180` (with an effective radial segment count of
at least 3) produces an open strip with no such seam triangle. -/
theorem C2_arc_span_topology (pts : List Vec2) (ps : RingParameters)
    (h3 : 3 ≤ pts.length) :
    ((ps.arcDegrees = 360 ∨ ps.arcDegrees = 359.9) → seamConnected pts ps) ∧
      (ps.arcDegrees = 180 → 3 ≤ radialSegmentsN ps → ¬ seamConnected pts ps) := by
  have hP : 2 ≤ profileSegments pts := by
    have := profileSegments_ge pts h3
    omega
  constructor
  · rintro (h | h)
    · apply seamConnected_closed _ _ _ hP
      show (359.9 : ℚ) ≤ ps.arcDegrees
      rw [h]
      norm_num
    · apply seamConnected_closed _ _ _ hP
      show (359.9 : ℚ) ≤ ps.arcDegrees
      rw [h]
  · intro h hR
    apply not_seamConnected_open _ _ _ hR hP
    show ¬ (359.9 : ℚ) ≤ ps.arcDegrees
    rw [h]
    norm_num

theorem C2_witness :
    seamConnected triangleProfile defaultParameters ∧
      ¬ seamConnected triangleProfile params180 := by
  constructor
  · exact (C2_arc_span_topology triangleProfile defaultParameters
      (by rw [triangleProfile_length])).1 (Or.inl rfl)
  · exact (C2_arc_span_topology triangleProfile params180
      (by rw [triangleProfile_length])).2 rfl
      (by rw [radialSegmentsN_params180]; norm_num)

/-- C3 counterexample: with requested `radialSegments = 2` and a closed sweep
(`arcDegrees = 360`), the generator writes `3 * profileSegments` vertices, not
`requested * profileSegments = 2 * profileSegments` — the effective radial
count is floored at 3, so "radialSegments equals the requested radialSegments
when the sweep is closed" fails. -/
theorem C3_counterexample :
    (buildRingGeometry triangleProfile paramsReq2).positions.length ≠
      2 * profileSegments triangleProfile := by
  have h : (buildRingGeometry triangleProfile paramsReq2).positions.length =
      radialSegmentsN paramsReq2 * profileSegments triangleProfile :=
    positionsList_length _ _
  have hP : 96 ≤ profileSegments triangleProfile :=
    profileSegments_ge _ (by rw [triangleProfile_length])
  rw [h, radialSegmentsN_paramsReq2]
  omega

/-- C3 (amended): the vertex count written by `buildRingGeometry` always
equals `radialSegments * profileSegments`, where the effective radial count is
`max(3, max(2, ⌊requested⌋))` for a closed sweep (`arcDegrees ≥ 359.9`) and
`max(2, ⌊requested * arcDegrees / 360⌋)` for an open sweep. -/
theorem C3_vertex_count_law (pts : List Vec2) (ps : RingParameters) :
    (buildRingGeometry pts ps).positions.length =
        radialSegmentsN ps * profileSegments pts ∧
      (closedSweep ps → (radialSegmentsN ps : ℤ) = max 3 (max 2 ⌊ps.radialSegments⌋)) ∧
      (¬ closedSweep ps →
        (radialSegmentsN ps : ℤ) = max 2 ⌊ps.radialSegments * ps.arcDegrees / 360⌋) := by
  refine ⟨positionsList_length pts ps, fun hc => ?_, fun hc => ?_⟩
  · rw [radialSegmentsN_cast, radialSegmentsZ_closed ps hc]
  · rw [radialSegmentsN_cast, radialSegmentsZ_open ps hc]

theorem C3_witness :
    (buildRingGeometry triangleProfile defaultParameters).positions.length =
        radialSegmentsN defaultParameters * profileSegments triangleProfile ∧
      (radialSegmentsN defaultParameters : ℤ) =
        max 3 (max 2 ⌊defaultParameters.radialSegments⌋) :=
  ⟨(C3_vertex_count_law triangleProfile defaultParameters).1,
    (C3_vertex_count_law triangleProfile defaultParameters).2.1 closedSweep_default⟩

/-- C4: for every (nonempty) input point list, the signed shoelace area of the
normalized profile — after winding correction and closure — is non-negative,
regardless of the input polygon's winding. -/
theorem C4_winding_invariant (pts : List Vec2) (hne : pts ≠ []) :
    0 ≤ signedArea (normalizedProfile pts) := by
  unfold normalizedProfile
  rw [signedArea_ensureClosedProfile _
    (ensureCounterClockwise_ne_nil _ (sampleProfile_ne_nil pts hne))]
  exact ensureCounterClockwise_area_nonneg _

theorem C4_witness : squareCW ≠ [] ∧ 0 ≤ signedArea (normalizedProfile squareCW) :=
  ⟨by simp [squareCW], C4_winding_invariant squareCW (by simp [squareCW])⟩

/-- C5: for every control point list of length ≥ 3 the normalized profile's
first and last points are equal, and `ensureClosedProfile` appends a copy of
the first point exactly when the last point is not already equal to it under
exact equality. -/
theorem C5_closure_invariant (pts : List Vec2) (h3 : 3 ≤ pts.length) :
    (normalizedProfile pts).headD ⟨0, 0⟩ = (normalizedProfile pts).getLastD ⟨0, 0⟩ ∧
      ∀ l : List Vec2,
        ensureClosedProfile l =
          if l.headD ⟨0, 0⟩ = l.getLastD ⟨0, 0⟩ then l else l ++ [l.headD ⟨0, 0⟩] := by
  constructor
  · unfold normalizedProfile
    apply ensureClosedProfile_head_eq_last
    apply ensureCounterClockwise_ne_nil
    apply sampleProfile_ne_nil
    intro h
    rw [h] at h3
    simp at h3
  · intro l
    rfl

theorem C5_witness :
    3 ≤ triangleProfile.length ∧
      (normalizedProfile triangleProfile).headD ⟨0, 0⟩ =
        (normalizedProfile triangleProfile).getLastD ⟨0, 0⟩ :=
  ⟨by simp [triangleProfile],
    (C5_closure_invariant triangleProfile (by simp [triangleProfile])).1⟩

/-- C6: the local scale used for every lattice ring equals
`max(0.05, profileScale) * max(0.2, 1 + taper * ramp t) * max(0.25, scaleWave)`
and is bounded below by `0.05 * 0.2 * 0.25 = 1/400 > 0` for every parameter
record and every radial position — in particular no zero-area cross-section. -/
theorem C6_scale_floor (ps : RingParameters) (t : ℚ) :
    localScale ps t =
        max 0.05 (ps.profileScale : ℝ) *
          max 0.2 (1 + (ps.taper : ℝ) * (symmetricRamp t : ℝ)) *
          max 0.25 (scaleWave ps t) ∧
      (1 / 400 : ℝ) ≤ localScale ps t := by
  constructor
  · unfold localScale baseScaleClamp scaleFactor
    push_cast
    norm_num
  · have h1 : (0.05 : ℝ) ≤ (baseScaleClamp ps : ℝ) := by
      have h : ((0.05 : ℚ) : ℝ) ≤ ((baseScaleClamp ps : ℚ) : ℝ) :=
        Rat.cast_le.mpr (le_max_left _ _)
      norm_num at h
      linarith
    have h2 : (0.2 : ℝ) ≤ (scaleFactor ps t : ℝ) := by
      have h : ((0.2 : ℚ) : ℝ) ≤ ((scaleFactor ps t : ℚ) : ℝ) :=
        Rat.cast_le.mpr (le_max_left _ _)
      norm_num at h
      linarith
    have h3 : (0.25 : ℝ) ≤ max 0.25 (scaleWave ps t) := le_max_left _ _
    have hb : (0 : ℝ) ≤ (baseScaleClamp ps : ℝ) := by linarith
    have hAB : (0.05 * 0.2 : ℝ) ≤ (baseScaleClamp ps : ℝ) * (scaleFactor ps t : ℝ) :=
      mul_le_mul h1 h2 (by norm_num) hb
    have hABC : (0.05 * 0.2 * 0.25 : ℝ) ≤
        (baseScaleClamp ps : ℝ) * (scaleFactor ps t : ℝ) * max 0.25 (scaleWave ps t) :=
      mul_le_mul hAB h3 (by norm_num)
        (mul_nonneg hb (by linarith))
    calc (1 / 400 : ℝ) = 0.05 * 0.2 * 0.25 := by norm_num
      _ ≤ _ := hABC

/-- C7: calling `updateProfile` with an empty point sequence returns without
building or disposing anything: the mesh state is unchanged and no scene
effect is performed. -/
theorem C7_empty_noop (st : Option RingGeometry) (pts : List Vec2)
    (ps : RingParameters) (h : pts.length = 0) :
    updateProfile st pts ps = (st, []) := by
  unfold updateProfile
  rw [if_pos h]

theorem C7_witness :
    updateProfile none ([] : List Vec2) defaultParameters = (none, []) :=
  C7_empty_noop none [] defaultParameters rfl

/-- C8: `buildRingGeometry` is deterministic — identical control points and
identical parameter records give identical position, UV and index output (the
embedding of the generator is a pure function of its two arguments). -/
theorem C8_deterministic (pts₁ pts₂ : List Vec2) (ps₁ ps₂ : RingParameters)
    (hp : pts₁ = pts₂) (hq : ps₁ = ps₂) :
    (buildRingGeometry pts₁ ps₁).positions = (buildRingGeometry pts₂ ps₂).positions ∧
      (buildRingGeometry pts₁ ps₁).uvs = (buildRingGeometry pts₂ ps₂).uvs ∧
      (buildRingGeometry pts₁ ps₁).indices = (buildRingGeometry pts₂ ps₂).indices := by
  subst hp
  subst hq
  exact ⟨rfl, rfl, rfl⟩

theorem C8_witness :
    (buildRingGeometry circle12 defaultParameters).positions =
        (buildRingGeometry circle12 defaultParameters).positions ∧
      (buildRingGeometry circle12 defaultParameters).uvs =
        (buildRingGeometry circle12 defaultParameters).uvs ∧
      (buildRingGeometry circle12 defaultParameters).indices =
        (buildRingGeometry circle12 defaultParameters).indices :=
  C8_deterministic circle12 circle12 defaultParameters defaultParameters rfl rfl

/-- C9: the ramp satisfies `ramp 0 = 0`, `ramp (1/2) = 1`, `ramp 1 = 0`, is
symmetric about the midpoint on `[0, 1]`, and on each half equals the
smoothstep easing `3u² - 2u³` of the triangular envelope (`u = 2t` rising,
`u = 2 - 2t` falling). -/
theorem C9_symmetric_ramp (t : ℚ) (h0 : 0 ≤ t) (h1 : t ≤ 1) :
    symmetricRamp 0 = 0 ∧ symmetricRamp (1/2) = 1 ∧ symmetricRamp 1 = 0 ∧
      symmetricRamp t = symmetricRamp (1 - t) ∧
      (t ≤ 1/2 → symmetricRamp t = 3 * (2*t)^2 - 2 * (2*t)^3) ∧
      (1/2 ≤ t → symmetricRamp t = 3 * (2 - 2*t)^2 - 2 * (2 - 2*t)^3) := by
  refine ⟨?_, ?_, ?_, ?_, fun h => symmetricRamp_first_half t h0 h,
    fun h => symmetricRamp_second_half t h h1⟩
  · rw [symmetricRamp_first_half 0 le_rfl (by norm_num)]
    norm_num
  · rw [symmetricRamp_first_half (1/2) (by norm_num) le_rfl]
    norm_num
  · rw [symmetricRamp_second_half 1 (by norm_num) le_rfl]
    norm_num
  · rcases le_or_lt t (1/2) with h | h
    · rw [symmetricRamp_first_half t h0 h,
        symmetricRamp_second_half (1 - t) (by linarith) (by linarith)]
      ring
    · rw [symmetricRamp_second_half t (le_of_lt h) h1,
        symmetricRamp_first_half (1 - t) (by linarith) (by linarith)]
      ring

theorem C9_witness : symmetricRamp (1/4) = symmetricRamp (1 - 1/4) :=
  (C9_symmetric_ramp (1/4) (by norm_num) (by norm_num)).2.2.2.1

/-- C10: when the sweep is closed (`arcDegrees ≥ 359.9`) the effective radial
segment count is `max(3, max(2, ⌊requested⌋))`, hence never below 3 even when
the requested count is below 3. -/
theorem C10_closed_floor (ps : RingParameters) (hc : closedSweep ps) :
    (radialSegmentsN ps : ℤ) = max 3 (max 2 ⌊ps.radialSegments⌋) ∧
      3 ≤ radialSegmentsN ps :=
  ⟨by rw [radialSegmentsN_cast, radialSegmentsZ_closed ps hc],
    three_le_radialSegmentsN_closed ps hc⟩

theorem C10_witness :
    closedSweep paramsReq2 ∧ 3 ≤ radialSegmentsN paramsReq2 :=
  ⟨closedSweep_paramsReq2, (C10_closed_floor paramsReq2 closedSweep_paramsReq2).2⟩


end ProfileRing
